import Mathlib

/-!
Shallow embedding of the tree-search engine (`tree_search.py`) and the
city-graph search domain (`cidades.py`).

States and actions are type parameters `σ` and `α`; step costs and
heuristic values are integers (the engine only ever adds and compares
them, and the city fixture's distances are integers), while the derived
statistics that divide (`avg_branching`, `avg_depth`) are rationals.  The Python `while` loop of
`SearchTree.search` is modelled with explicit fuel; the result type
distinguishes a found path, exhaustion of the frontier (Python returns
`None`), and running out of fuel.  Python's stable `sorted(..., key=...)`
is modelled by `List.insertionSort` over the key preorder, which is also a
stable sort; a stable sort of a list with respect to a total preorder is
unique, so the two functions agree on every input.
-/

/-- Search-tree nodes (`SearchNode` in `tree_search.py`): state, optional
parent link, depth, accumulated cost, heuristic value, generating action. -/
inductive SearchNode (σ α : Type) : Type where
  | mk (state : σ) (parent : Option (SearchNode σ α)) (depth : Nat)
       (cost : Int) (heuristic : Int) (action : Option α)

variable {σ α : Type}

def SearchNode.state : SearchNode σ α → σ
  | .mk s _ _ _ _ _ => s

def SearchNode.parent : SearchNode σ α → Option (SearchNode σ α)
  | .mk _ p _ _ _ _ => p

def SearchNode.depth : SearchNode σ α → Nat
  | .mk _ _ d _ _ _ => d

def SearchNode.cost : SearchNode σ α → Int
  | .mk _ _ _ c _ _ => c

def SearchNode.heuristic : SearchNode σ α → Int
  | .mk _ _ _ _ h _ => h

def SearchNode.action : SearchNode σ α → Option α
  | .mk _ _ _ _ _ a => a

@[simp] theorem SearchNode.state_mk (s : σ) (p d c h a) :
    (SearchNode.mk (α := α) s p d c h a).state = s := rfl

@[simp] theorem SearchNode.parent_mk (s : σ) (p d c h a) :
    (SearchNode.mk (α := α) s p d c h a).parent = p := rfl

@[simp] theorem SearchNode.depth_mk (s : σ) (p d c h a) :
    (SearchNode.mk (α := α) s p d c h a).depth = d := rfl

@[simp] theorem SearchNode.cost_mk (s : σ) (p d c h a) :
    (SearchNode.mk (α := α) s p d c h a).cost = c := rfl

@[simp] theorem SearchNode.heuristic_mk (s : σ) (p d c h a) :
    (SearchNode.mk (α := α) s p d c h a).heuristic = h := rfl

@[simp] theorem SearchNode.action_mk (s : σ) (p d c h a) :
    (SearchNode.mk (α := α) s p d c h a).action = a := rfl

/-- `SearchNode.in_parent`: true iff the state equals this node's state or
the state of some ancestor (walking `parent` links to the root). -/
def SearchNode.in_parent [DecidableEq σ] : SearchNode σ α → σ → Bool
  | .mk s p _ _ _ _, x =>
    if s = x then true
    else
      match p with
      | none => false
      | some par => par.in_parent x

/-- `SearchTree.get_path`: the root-to-node sequence of states. -/
def get_path : SearchNode σ α → List σ
  | .mk s none _ _ _ _ => [s]
  | .mk s (some p) _ _ _ _ => get_path p ++ [s]

/-- `SearchTree.get_plan`: the root-to-node sequence of actions.  The root
contributes nothing; a child contributes its generating action.  For the
nodes actually built by the engine the action of a non-root node is always
present, and `get_plan` reads it off; a `none` action contributes nothing,
matching the fact that the Python code would append `None` only for a node
built by hand with `parent` set and `action = None`. -/
def get_plan : SearchNode σ α → List α
  | .mk _ none _ _ _ _ => []
  | .mk _ (some p) _ _ _ a => get_plan p ++ a.toList

/-- The abstract search-domain contract (`SearchDomain` in `tree_search.py`). -/
structure SearchDomain (σ α : Type) where
  actions : σ → List α
  result : σ → α → σ
  cost : σ → α → Int
  heuristic : σ → σ → Int
  satisfies : σ → σ → Bool

/-- `SearchProblem`: a domain together with an initial state and a goal. -/
structure SearchProblem (σ α : Type) where
  domain : SearchDomain σ α
  initial : σ
  goal : σ

/-- `SearchProblem.goal_test` delegates to `domain.satisfies`. -/
def SearchProblem.goal_test (p : SearchProblem σ α) (s : σ) : Bool :=
  p.domain.satisfies s p.goal

/-- The mutable engine state of `SearchTree`. -/
structure SearchTree (σ α : Type) where
  problem : SearchProblem σ α
  strategy : String
  open_nodes : List (SearchNode σ α)
  solution : Option (SearchNode σ α)
  terminals : Nat
  non_terminals : Nat
  high_cost_nodes : List (SearchNode σ α)
  avg_depth : Rat

/-- The root node built by `SearchTree.__init__`. -/
def rootNode (p : SearchProblem σ α) : SearchNode σ α :=
  .mk p.initial none 0 0 (p.domain.heuristic p.initial p.goal) none

/-- `SearchTree.__init__(problem, strategy)`. -/
def SearchTree.init (p : SearchProblem σ α) (strategy : String) : SearchTree σ α :=
  { problem := p
    strategy := strategy
    open_nodes := [rootNode p]
    solution := none
    terminals := 1
    non_terminals := 0
    high_cost_nodes := [rootNode p]
    avg_depth := 0 }

/-- Round a rational to the nearest integer, ties to even — the behaviour
of Python's `round` on exactly representable values. -/
def roundHalfEven (q : Rat) : Int :=
  if q - q.floor < 1 / 2 then q.floor
  else if q - q.floor > 1 / 2 then q.floor + 1
  else if q.floor % 2 = 0 then q.floor else q.floor + 1

/-- Python's `round(x, 2)`. -/
def pyRound2 (q : Rat) : Rat :=
  (roundHalfEven (q * 100) : Rat) / 100

/-- `SearchTree.avg_branching`: `round((terminals + non_terminals - 1) /
non_terminals, 2)`.  The Python code divides with no guard, so
`non_terminals == 0` raises `ZeroDivisionError`; that error is modelled by
`none`. -/
def SearchTree.avg_branching (t : SearchTree σ α) : Option Rat :=
  if t.non_terminals = 0 then none
  else some (pyRound2 (((t.terminals : Rat) + (t.non_terminals : Rat) - 1) / (t.non_terminals : Rat)))

/-- `SearchTree.length` property: `solution.depth`.  Reading it with no
solution is an attribute error on `None`, modelled by `none`. -/
def SearchTree.length (t : SearchTree σ α) : Option Nat :=
  t.solution.map SearchNode.depth

/-- `SearchTree.cost` property: `solution.cost`. -/
def SearchTree.cost (t : SearchTree σ α) : Option Int :=
  t.solution.map SearchNode.cost

/-- `SearchTree.plan` property: `get_plan(solution)`. -/
def SearchTree.plan (t : SearchTree σ α) : Option (List α) :=
  t.solution.map get_plan

/-- The body of the `for a in self.problem.domain.actions(node.state)` loop
in `SearchTree.search`: build every child and keep those that neither close
a cycle nor exceed the depth limit. -/
def expand [DecidableEq σ] (t : SearchTree σ α) (node : SearchNode σ α)
    (limit : Option Nat) : List (SearchNode σ α) :=
  (t.problem.domain.actions node.state).filterMap (fun a =>
    let newstate := t.problem.domain.result node.state a
    let newnode : SearchNode σ α :=
      .mk newstate (some node) (node.depth + 1)
        (node.cost + t.problem.domain.cost node.state a)
        (t.problem.domain.heuristic newstate t.problem.goal) (some a)
    if !node.in_parent newstate &&
        (match limit with
         | none => true
         | some l => decide (newnode.depth ≤ l)) then
      some newnode
    else none)

/-- `SearchTree.add_to_open`: strategy-specific insertion into the frontier.
Python's stable `sorted(..., key=k)` is `List.insertionSort` by `k · ≤ k ·`. -/
def add_to_open (t : SearchTree σ α) (lnewnodes : List (SearchNode σ α)) :
    SearchTree σ α :=
  if t.strategy = "breadth" then
    { t with open_nodes := t.open_nodes ++ lnewnodes }
  else if t.strategy = "depth" then
    { t with open_nodes := lnewnodes ++ t.open_nodes }
  else if t.strategy = "uniform" then
    { t with open_nodes :=
        ((t.open_nodes ++ lnewnodes).insertionSort (fun n m => n.cost ≤ m.cost)) }
  else if t.strategy = "greedy" then
    { t with open_nodes :=
        ((t.open_nodes ++ lnewnodes).insertionSort (fun n m => n.heuristic ≤ m.heuristic)) }
  else if t.strategy = "a*" then
    { t with open_nodes :=
        ((t.open_nodes ++ lnewnodes).insertionSort
          (fun n m => n.heuristic + n.cost ≤ m.heuristic + m.cost)) }
  else t

/-- The `high_cost_nodes` bookkeeping at the top of the search loop. -/
def updateHighCost (t : SearchTree σ α) (node : SearchNode σ α) : SearchTree σ α :=
  match t.high_cost_nodes.head? with
  | none => t
  | some h0 =>
    if h0.cost < node.cost then { t with high_cost_nodes := [node] }
    else if node.cost = h0.cost then
      { t with high_cost_nodes := t.high_cost_nodes ++ [node] }
    else t

/-- The non-goal tail of one loop iteration: count the node as expanded,
generate its surviving children, and insert them into the frontier. -/
def expandStep [DecidableEq σ] (limit : Option Nat) (t : SearchTree σ α)
    (node : SearchNode σ α) : SearchTree σ α :=
  let t3 := { t with non_terminals := t.non_terminals + 1 }
  add_to_open t3 (expand t3 node limit)

/-- Outcome of `SearchTree.search`: a found path, `None` after frontier
exhaustion, or fuel running out (the Python loop just keeps going). -/
inductive SearchResult (σ : Type) where
  | found : List σ → SearchResult σ
  | failure : SearchResult σ
  | outOfFuel : SearchResult σ
deriving DecidableEq

/-- `SearchTree.search(limit)`, with explicit fuel bounding the number of
loop iterations.  Returns the result together with the final engine state. -/
def searchAux [DecidableEq σ] (limit : Option Nat) :
    Nat → SearchTree σ α → SearchResult σ × SearchTree σ α
  | 0, t => (.outOfFuel, t)
  | fuel + 1, t =>
    match t.open_nodes with
    | [] => (.failure, t)
    | node :: rest =>
      let t2 := updateHighCost { t with open_nodes := rest } node
      if t2.problem.goal_test node.state then
        (.found (get_path node),
         { t2 with
            terminals := rest.length + 1
            solution := some node
            avg_depth := (node.depth : Rat) / ((rest.length + 1 + t2.non_terminals : Nat) : Rat) })
      else
        searchAux limit fuel (expandStep limit t2 node)

/-- Method-style wrapper for `searchAux`. -/
def SearchTree.search [DecidableEq σ] (t : SearchTree σ α) (limit : Option Nat)
    (fuel : Nat) : SearchResult σ × SearchTree σ α :=
  searchAux limit fuel t

/-- Ghost instrumentation of `searchAux`: the list of
(popped node, frontier remaining at that pop) pairs, in pop order.  The
state evolves through exactly the same `updateHighCost`/`expandStep` calls
as `searchAux`. -/
def searchTrace [DecidableEq σ] (limit : Option Nat) :
    Nat → SearchTree σ α → List (SearchNode σ α × List (SearchNode σ α))
  | 0, _ => []
  | fuel + 1, t =>
    match t.open_nodes with
    | [] => []
    | node :: rest =>
      (node, rest) ::
        (let t2 := updateHighCost { t with open_nodes := rest } node
         if t2.problem.goal_test node.state then []
         else searchTrace limit fuel (expandStep limit t2 node))

/-! ## The city-graph domain (`cidades.py`)

Cities are strings, actions are ordered pairs of cities, road lengths are
rationals.  The `self.connections` field is passed explicitly.  The
`heuristic` method (floating-point `hypot` over coordinates) is outside
the claims about this domain and is not modelled. -/

/-- `Cidades.actions`: scan the connection triples, taking `(C1, C2)` when
`C1` is the city and otherwise `(C2, C1)` when `C2` is the city. -/
def Cidades.actions : List (String × String × Int) → String → List (String × String)
  | [], _ => []
  | (c1, c2, _) :: rest, city =>
    if c1 = city then (c1, c2) :: Cidades.actions rest city
    else if c2 = city then (c2, c1) :: Cidades.actions rest city
    else Cidades.actions rest city

/-- `Cidades.result`: the action's second component when its first
component is the current city; Python otherwise falls off the end of the
function and returns `None`. -/
def Cidades.result (city : String) (action : String × String) : Option String :=
  if action.1 = city then some action.2 else none

/-- `Cidades.cost`: the length of the first connection matching the action
in either orientation; `None` when no connection matches.  (The `city`
argument is ignored, as in the source.) -/
def Cidades.cost : List (String × String × Int) → String → (String × String) → Option Int
  | [], _, _ => none
  | (c1, c2, d) :: rest, city, action =>
    if action = (c1, c2) ∨ action = (c2, c1) then some d
    else Cidades.cost rest city action

/-- `Cidades.satisfies`: goal test is equality of cities. -/
def Cidades.satisfies (city goal_city : String) : Bool :=
  goal_city = city

/-- The road network of the `cidades_portugal` fixture. -/
def cidades_portugal_connections : List (String × String × Int) :=
  [("Coimbra", "Leiria", 73),
   ("Aveiro", "Agueda", 35),
   ("Porto", "Agueda", 79),
   ("Agueda", "Coimbra", 45),
   ("Viseu", "Agueda", 78),
   ("Aveiro", "Porto", 78),
   ("Aveiro", "Coimbra", 65),
   ("Figueira", "Aveiro", 77),
   ("Braga", "Porto", 57),
   ("Viseu", "Guarda", 75),
   ("Viseu", "Coimbra", 91),
   ("Figueira", "Coimbra", 52),
   ("Leiria", "Castelo Branco", 169),
   ("Figueira", "Leiria", 62),
   ("Leiria", "Santarem", 78),
   ("Santarem", "Lisboa", 82),
   ("Santarem", "Castelo Branco", 160),
   ("Castelo Branco", "Viseu", 174),
   ("Santarem", "Evora", 122),
   ("Lisboa", "Evora", 132),
   ("Evora", "Beja", 105),
   ("Lisboa", "Beja", 178),
   ("Faro", "Beja", 147),
   ("Braga", "Guimaraes", 25),
   ("Porto", "Guimaraes", 44),
   ("Guarda", "Covilha", 46),
   ("Viseu", "Covilha", 57),
   ("Castelo Branco", "Covilha", 62),
   ("Guarda", "Castelo Branco", 96),
   ("Lamego", "Guimaraes", 88),
   ("Lamego", "Viseu", 47),
   ("Lamego", "Guarda", 64),
   ("Portalegre", "Castelo Branco", 64),
   ("Portalegre", "Santarem", 157),
   ("Portalegre", "Evora", 194)]

/-! ## Concrete fixtures for witnesses

A small chain domain over natural-number states: from state `s` the only
action is `s + 1` (up to state 2), each step costing 1. -/

/-- A three-state chain domain `0 → 1 → 2`; the action is the target state. -/
def demoDomain : SearchDomain Nat Nat :=
  { actions := fun s => if s < 2 then [s + 1] else []
    result := fun _ a => a
    cost := fun _ _ => 1
    heuristic := fun _ _ => 0
    satisfies := fun s g => s = g }

/-- Reach state 2 from state 0 in the chain domain. -/
def demoProblem : SearchProblem Nat Nat :=
  { domain := demoDomain, initial := 0, goal := 2 }

/-- A problem whose goal (state 7) is unreachable in the chain domain. -/
def demoProblemNoGoal : SearchProblem Nat Nat :=
  { domain := demoDomain, initial := 0, goal := 7 }

/-- A problem whose initial state already satisfies the goal. -/
def demoProblemAtRoot : SearchProblem Nat Nat :=
  { domain := demoDomain, initial := 0, goal := 0 }

/-- A diamond domain for the cost-ordering witnesses: from state 0 both
1 and 2 are reachable (costing 3 and 1), from each of them state 3 is
reachable (costing 1 and 9); the heuristic is identically 0. -/
def demoDomain2 : SearchDomain Nat Nat :=
  { actions := fun s => if s = 0 then [1, 2] else if s = 1 then [3] else if s = 2 then [3] else []
    result := fun _ a => a
    cost := fun s a => if s = 0 && a = 1 then 3 else if s = 2 && a = 3 then 9 else 1
    heuristic := fun _ _ => 0
    satisfies := fun s g => s = g }

/-- Reach state 3 from state 0 in the diamond domain. -/
def demoProblem2 : SearchProblem Nat Nat :=
  { domain := demoDomain2, initial := 0, goal := 3 }

/-! ## Basic path lemmas -/

theorem get_path_ne_nil : ∀ (n : SearchNode σ α), get_path n ≠ []
  | .mk _ none _ _ _ _ => by simp [get_path]
  | .mk _ (some _) _ _ _ _ => by simp [get_path]

theorem getLast?_get_path : ∀ (n : SearchNode σ α), (get_path n).getLast? = some n.state
  | .mk s none _ _ _ _ => by simp [get_path]
  | .mk s (some p) _ _ _ _ => by simp [get_path, List.getLast?_concat]

theorem in_parent_iff_mem_get_path [DecidableEq σ] :
    ∀ (n : SearchNode σ α) (x : σ), n.in_parent x = true ↔ x ∈ get_path n
  | .mk s none _ _ _ _, x => by
    by_cases hs : s = x <;> simp [SearchNode.in_parent, get_path, hs, eq_comm]
  | .mk s (some p) _ _ _ _, x => by
    have ih := in_parent_iff_mem_get_path p x
    by_cases hs : s = x <;>
      simp [SearchNode.in_parent, get_path, hs, ih, eq_comm]

/-! ## Well-formed generated nodes

`Gen d s0 g n` says that `n` is a node the engine can build over domain `d`
for a problem with initial state `s0` and goal `g`: either the root node of
`SearchTree.__init__`, or a child built in the expansion loop of `search`
from a generated parent and an applicable action. -/

inductive Gen (d : SearchDomain σ α) (s0 g : σ) : SearchNode σ α → Prop
  | root : Gen d s0 g (.mk s0 none 0 0 (d.heuristic s0 g) none)
  | child (p : SearchNode σ α) (a : α) (hp : Gen d s0 g p)
      (ha : a ∈ d.actions p.state) :
      Gen d s0 g (.mk (d.result p.state a) (some p) (p.depth + 1)
        (p.cost + d.cost p.state a) (d.heuristic (d.result p.state a) g) (some a))

/-- One transition step along a path: some applicable action leads from the
first state to the second. -/
def DomainStep (d : SearchDomain σ α) (s s' : σ) : Prop :=
  ∃ a ∈ d.actions s, d.result s a = s'

/-- Sum of the step costs `d.cost path[i] plan[i]` over the plan. -/
def costAlong (d : SearchDomain σ α) (path : List σ) (plan : List α) : Int :=
  ((path.zip plan).map (fun sa => d.cost sa.1 sa.2)).sum

theorem zip_concat_concat (Q : List σ) (L : List α) (w u : σ) (v : α)
    (h : Q.length = L.length) :
    (Q ++ [w] ++ [u]).zip (L ++ [v]) = (Q ++ [w]).zip L ++ [(w, v)] := by
  have h1 : (Q ++ [w] ++ [u]).zip (L ++ [v]) = Q.zip L ++ [(w, v)] := by
    rw [List.append_assoc]
    rw [List.zip_append h]
    rfl
  have h2 : (Q ++ [w]).zip L = Q.zip L := by
    conv_lhs => rw [show L = L ++ [] by simp]
    rw [List.zip_append h]
    simp
  rw [h1, h2]

/-- The central structural facts about every generated node: its path
starts at the initial state, ends at its own state, has `depth + 1` states
and `depth` plan entries, its accumulated cost is the sum of the step
costs along the path, and consecutive path states are related by an
applicable action. -/
theorem Gen.main {d : SearchDomain σ α} {s0 g : σ} {n : SearchNode σ α}
    (hn : Gen d s0 g n) :
    (get_path n).head? = some s0 ∧
    (get_path n).length = n.depth + 1 ∧
    (get_plan n).length = n.depth ∧
    n.cost = costAlong d (get_path n) (get_plan n) ∧
    List.Chain' (DomainStep d) (get_path n) := by
  induction hn with
  | root => simp [get_path, get_plan, costAlong]
  | child p a hp ha ih =>
    obtain ⟨ihHead, ihPathLen, ihPlanLen, ihCost, ihChain⟩ := ih
    have hPathNe := get_path_ne_nil p
    have hLast := getLast?_get_path p
    have hdecomp : (get_path p).dropLast ++ [p.state] = get_path p :=
      List.dropLast_append_getLast? p.state hLast
    constructor
    · simp only [get_path, List.head?_append, ihHead]
      rfl
    refine ⟨?_, ?_, ?_, ?_⟩
    · simp [get_path, ihPathLen]
    · simp [get_plan, ihPlanLen]
    · have hQlen : (get_path p).dropLast.length = (get_plan p).length := by
        have : (get_path p).dropLast.length = (get_path p).length - 1 :=
          List.length_dropLast _
        omega
      have hzip : (get_path p ++ [d.result p.state a]).zip (get_plan p ++ [a]) =
          (get_path p).zip (get_plan p) ++ [(p.state, a)] := by
        conv_lhs => rw [← hdecomp]
        rw [zip_concat_concat _ _ _ _ _ hQlen]
        rw [hdecomp]
      simp only [get_path, get_plan, Option.toList, costAlong, SearchNode.cost_mk]
      rw [hzip]
      simp only [List.map_append, List.sum_append, List.map_cons, List.map_nil,
        List.sum_cons, List.sum_nil]
      rw [ihCost]
      simp [costAlong]
    · simp only [get_path]
      rw [List.chain'_append]
      refine ⟨ihChain, List.chain'_singleton _, ?_⟩
      intro x hx y hy
      simp only [List.head?_cons, Option.mem_def, Option.some.injEq] at hy
      rw [hLast] at hx
      simp only [Option.mem_def, Option.some.injEq] at hx
      subst hx hy
      exact ⟨a, ha, rfl⟩

/-! ## Preservation lemmas for the engine state -/

@[simp] theorem add_to_open_problem (t : SearchTree σ α) (l : List (SearchNode σ α)) :
    (add_to_open t l).problem = t.problem := by
  unfold add_to_open
  repeat' split
  all_goals rfl

@[simp] theorem add_to_open_strategy (t : SearchTree σ α) (l : List (SearchNode σ α)) :
    (add_to_open t l).strategy = t.strategy := by
  unfold add_to_open
  repeat' split
  all_goals rfl

@[simp] theorem add_to_open_solution (t : SearchTree σ α) (l : List (SearchNode σ α)) :
    (add_to_open t l).solution = t.solution := by
  unfold add_to_open
  repeat' split
  all_goals rfl

@[simp] theorem add_to_open_non_terminals (t : SearchTree σ α) (l : List (SearchNode σ α)) :
    (add_to_open t l).non_terminals = t.non_terminals := by
  unfold add_to_open
  repeat' split
  all_goals rfl

theorem mem_add_to_open {t : SearchTree σ α} {l : List (SearchNode σ α)}
    {n : SearchNode σ α} (h : n ∈ (add_to_open t l).open_nodes) :
    n ∈ t.open_nodes ∨ n ∈ l := by
  unfold add_to_open at h
  repeat' split at h
  all_goals simp_all [List.mem_insertionSort]
  all_goals tauto

@[simp] theorem updateHighCost_problem (t : SearchTree σ α) (n : SearchNode σ α) :
    (updateHighCost t n).problem = t.problem := by
  unfold updateHighCost
  repeat' split
  all_goals rfl

@[simp] theorem updateHighCost_strategy (t : SearchTree σ α) (n : SearchNode σ α) :
    (updateHighCost t n).strategy = t.strategy := by
  unfold updateHighCost
  repeat' split
  all_goals rfl

@[simp] theorem updateHighCost_open_nodes (t : SearchTree σ α) (n : SearchNode σ α) :
    (updateHighCost t n).open_nodes = t.open_nodes := by
  unfold updateHighCost
  repeat' split
  all_goals rfl

@[simp] theorem updateHighCost_solution (t : SearchTree σ α) (n : SearchNode σ α) :
    (updateHighCost t n).solution = t.solution := by
  unfold updateHighCost
  repeat' split
  all_goals rfl

@[simp] theorem updateHighCost_non_terminals (t : SearchTree σ α) (n : SearchNode σ α) :
    (updateHighCost t n).non_terminals = t.non_terminals := by
  unfold updateHighCost
  repeat' split
  all_goals rfl

@[simp] theorem expandStep_problem [DecidableEq σ] (limit : Option Nat)
    (t : SearchTree σ α) (n : SearchNode σ α) :
    (expandStep limit t n).problem = t.problem := by
  unfold expandStep
  simp

@[simp] theorem expandStep_strategy [DecidableEq σ] (limit : Option Nat)
    (t : SearchTree σ α) (n : SearchNode σ α) :
    (expandStep limit t n).strategy = t.strategy := by
  unfold expandStep
  simp

@[simp] theorem expandStep_solution [DecidableEq σ] (limit : Option Nat)
    (t : SearchTree σ α) (n : SearchNode σ α) :
    (expandStep limit t n).solution = t.solution := by
  unfold expandStep
  simp

/-- Membership characterisation of the expansion loop: exactly the children
generated by an applicable action that close no cycle and respect the depth
limit survive. -/
theorem mem_expand [DecidableEq σ] {t : SearchTree σ α} {node : SearchNode σ α}
    {limit : Option Nat} {c : SearchNode σ α} :
    c ∈ expand t node limit ↔
      ∃ a ∈ t.problem.domain.actions node.state,
        node.in_parent (t.problem.domain.result node.state a) = false ∧
        (∀ l, limit = some l → node.depth + 1 ≤ l) ∧
        c = .mk (t.problem.domain.result node.state a) (some node) (node.depth + 1)
          (node.cost + t.problem.domain.cost node.state a)
          (t.problem.domain.heuristic (t.problem.domain.result node.state a) t.problem.goal)
          (some a) := by
  simp only [expand, List.mem_filterMap]
  constructor
  · rintro ⟨a, ha, hf⟩
    split at hf
    · rename_i hcond
      simp only [Bool.and_eq_true, Bool.not_eq_true'] at hcond
      obtain ⟨h1, h2⟩ := hcond
      refine ⟨a, ha, h1, ?_, (Option.some.inj hf).symm⟩
      intro l hl
      subst hl
      simpa using h2
    · exact absurd hf (by simp)
  · rintro ⟨a, ha, h1, h2, rfl⟩
    refine ⟨a, ha, ?_⟩
    cases limit with
    | none => simp [h1]
    | some l =>
      have hd := h2 l rfl
      simp [h1, hd]

/-! ## The frontier invariant -/

/-- Every node in the frontier is a well-formed generated node, has no
repeated state on its root path, and respects the depth limit. -/
def OpenInv (limit : Option Nat) (t : SearchTree σ α) : Prop :=
  ∀ n ∈ t.open_nodes,
    Gen t.problem.domain t.problem.initial t.problem.goal n ∧
    (get_path n).Nodup ∧
    (∀ l, limit = some l → n.depth ≤ l)

theorem openInv_init (p : SearchProblem σ α) (strategy : String) (limit : Option Nat) :
    OpenInv limit (SearchTree.init p strategy) := by
  intro n hn
  simp only [SearchTree.init, List.mem_singleton] at hn
  subst hn
  refine ⟨Gen.root, ?_, ?_⟩
  · simp [rootNode, get_path]
  · intro l _
    simp [rootNode]

theorem openInv_expandStep [DecidableEq σ] {limit : Option Nat}
    {t : SearchTree σ α} {node : SearchNode σ α}
    (hnode : Gen t.problem.domain t.problem.initial t.problem.goal node ∧
      (get_path node).Nodup ∧ (∀ l, limit = some l → node.depth ≤ l))
    (hInv : OpenInv limit t) :
    OpenInv limit (expandStep limit t node) := by
  intro n hn
  have hp : (expandStep limit t node).problem = t.problem := by simp
  rw [hp]
  unfold expandStep at hn
  rcases mem_add_to_open hn with hmem | hmem
  · simp only at hmem
    exact hInv n hmem
  · rw [mem_expand] at hmem
    simp only at hmem
    obtain ⟨a, ha, hcyc, hlim, rfl⟩ := hmem
    refine ⟨Gen.child node a hnode.1 ha, ?_, ?_⟩
    · have hpath : get_path (SearchNode.mk (t.problem.domain.result node.state a)
          (some node) (node.depth + 1) (node.cost + t.problem.domain.cost node.state a)
          (t.problem.domain.heuristic (t.problem.domain.result node.state a) t.problem.goal)
          (some a)) = get_path node ++ [t.problem.domain.result node.state a] := rfl
      rw [hpath]
      have hnotmem : t.problem.domain.result node.state a ∉ get_path node := by
        intro hmem2
        rw [← in_parent_iff_mem_get_path] at hmem2
        rw [hcyc] at hmem2
        exact Bool.false_ne_true hmem2
      simp [List.nodup_append, hnode.2.1, hnotmem]
    · intro l hl
      simpa using hlim l hl

/-! ## Unfolding lemmas for the search loop -/

theorem searchAux_zero [DecidableEq σ] (limit : Option Nat) (t : SearchTree σ α) :
    searchAux limit 0 t = (.outOfFuel, t) := rfl

theorem searchAux_nil [DecidableEq σ] (limit : Option Nat) (fuel : Nat)
    (t : SearchTree σ α) (hopen : t.open_nodes = []) :
    searchAux limit (fuel + 1) t = (.failure, t) := by
  obtain ⟨prob, strat, opn, sol, ter, nont, hc, ad⟩ := t
  simp only at hopen
  subst hopen
  rfl

theorem searchAux_succ [DecidableEq σ] (limit : Option Nat) (fuel : Nat)
    (t : SearchTree σ α) (node : SearchNode σ α) (rest : List (SearchNode σ α))
    (hopen : t.open_nodes = node :: rest) :
    searchAux limit (fuel + 1) t =
      (let t2 := updateHighCost { t with open_nodes := rest } node
       if t2.problem.goal_test node.state then
        (SearchResult.found (get_path node),
         { t2 with
            terminals := rest.length + 1
            solution := some node
            avg_depth := (node.depth : Rat) / ((rest.length + 1 + t2.non_terminals : Nat) : Rat) })
       else searchAux limit fuel (expandStep limit t2 node)) := by
  obtain ⟨prob, strat, opn, sol, ter, nont, hc, ad⟩ := t
  simp only at hopen
  subst hopen
  rfl

/-! ## Master theorems about one whole run -/

theorem openInv_pop {limit : Option Nat} {t : SearchTree σ α}
    {node : SearchNode σ α} {rest : List (SearchNode σ α)}
    (hopen : t.open_nodes = node :: rest) (hInv : OpenInv limit t) :
    OpenInv limit (updateHighCost { t with open_nodes := rest } node) := by
  intro n hn
  simp only [updateHighCost_open_nodes, updateHighCost_problem] at hn ⊢
  exact hInv n (by rw [hopen]; exact List.mem_cons_of_mem _ hn)

theorem searchAux_final_problem [DecidableEq σ] {limit : Option Nat} :
    ∀ (fuel : Nat) (t : SearchTree σ α),
      (searchAux limit fuel t).2.problem = t.problem
  | 0, _ => rfl
  | fuel + 1, t => by
    cases hopen : t.open_nodes with
    | nil => rw [searchAux_nil _ _ _ hopen]
    | cons node rest =>
      rw [searchAux_succ _ _ _ _ _ hopen]
      simp only []
      split
      · simp
      · rw [searchAux_final_problem fuel _]
        simp

theorem searchAux_openInv [DecidableEq σ] {limit : Option Nat} :
    ∀ (fuel : Nat) (t : SearchTree σ α), OpenInv limit t →
      OpenInv limit (searchAux limit fuel t).2
  | 0, _, hInv => hInv
  | fuel + 1, t, hInv => by
    cases hopen : t.open_nodes with
    | nil => rw [searchAux_nil _ _ _ hopen]; exact hInv
    | cons node rest =>
      have hpop := openInv_pop hopen hInv
      have hnode := hInv node (by rw [hopen]; exact List.mem_cons_self _ _)
      rw [searchAux_succ _ _ _ _ _ hopen]
      simp only []
      split
      · intro n hn
        simp only at hn
        have h2 := hpop n (by simpa using hn)
        simpa using h2
      · refine searchAux_openInv fuel _ (openInv_expandStep ?_ hpop)
        simpa using hnode

theorem searchAux_failure [DecidableEq σ] {limit : Option Nat} :
    ∀ (fuel : Nat) (t : SearchTree σ α),
      (searchAux limit fuel t).1 = .failure →
      (searchAux limit fuel t).2.solution = t.solution ∧
        (searchAux limit fuel t).2.open_nodes = []
  | 0, t, h => by simp [searchAux] at h
  | fuel + 1, t, h => by
    cases hopen : t.open_nodes with
    | nil =>
      rw [searchAux_nil _ _ _ hopen]
      exact ⟨rfl, hopen⟩
    | cons node rest =>
      rw [searchAux_succ _ _ _ _ _ hopen] at h ⊢
      simp only [] at h ⊢
      split at h
      · simp at h
      · rename_i hg
        rw [if_neg hg]
        obtain ⟨h1, h2⟩ := searchAux_failure fuel _ h
        rw [h1]
        refine ⟨?_, h2⟩
        simp

theorem searchAux_found [DecidableEq σ] {limit : Option Nat} :
    ∀ (fuel : Nat) (t : SearchTree σ α) (path : List σ),
      OpenInv limit t →
      (searchAux limit fuel t).1 = .found path →
      ∃ node : SearchNode σ α,
        Gen t.problem.domain t.problem.initial t.problem.goal node ∧
        path = get_path node ∧
        t.problem.domain.satisfies node.state t.problem.goal = true ∧
        (searchAux limit fuel t).2.solution = some node ∧
        (get_path node).Nodup ∧
        (∀ l, limit = some l → node.depth ≤ l)
  | 0, t, path, _, h => by simp [searchAux] at h
  | fuel + 1, t, path, hInv, h => by
    cases hopen : t.open_nodes with
    | nil =>
      rw [searchAux_nil _ _ _ hopen] at h
      simp at h
    | cons node rest =>
      have hpop := openInv_pop hopen hInv
      have hnode := hInv node (by rw [hopen]; exact List.mem_cons_self _ _)
      rw [searchAux_succ _ _ _ _ _ hopen] at h ⊢
      simp only [] at h ⊢
      split at h
      · rename_i hg
        rw [if_pos hg]
        have hpath : get_path node = path := by simpa using h
        obtain ⟨hGen, hNodup, hDepth⟩ := hnode
        refine ⟨node, hGen, hpath.symm, ?_, ?_, hNodup, hDepth⟩
        · simp only [updateHighCost_problem] at hg
          simpa [SearchProblem.goal_test] using hg
        · simp
      · rename_i hg
        rw [if_neg hg]
        obtain ⟨n, hGen, hp, hs, hsol, hnd, hdep⟩ :=
          searchAux_found fuel _ path (openInv_expandStep (by simpa using hnode) hpop) h
        simp only [expandStep_problem, updateHighCost_problem] at hGen hs
        refine ⟨n, ?_, hp, ?_, hsol, hnd, hdep⟩
        · simpa using hGen
        · simpa using hs

/-! ## Trace unfolding lemmas -/

theorem searchTrace_zero [DecidableEq σ] (limit : Option Nat) (t : SearchTree σ α) :
    searchTrace limit 0 t = [] := rfl

theorem searchTrace_nil [DecidableEq σ] (limit : Option Nat) (fuel : Nat)
    (t : SearchTree σ α) (hopen : t.open_nodes = []) :
    searchTrace limit (fuel + 1) t = [] := by
  obtain ⟨prob, strat, opn, sol, ter, nont, hc, ad⟩ := t
  simp only at hopen
  subst hopen
  rfl

theorem searchTrace_succ [DecidableEq σ] (limit : Option Nat) (fuel : Nat)
    (t : SearchTree σ α) (node : SearchNode σ α) (rest : List (SearchNode σ α))
    (hopen : t.open_nodes = node :: rest) :
    searchTrace limit (fuel + 1) t =
      (node, rest) ::
        (let t2 := updateHighCost { t with open_nodes := rest } node
         if t2.problem.goal_test node.state then []
         else searchTrace limit fuel (expandStep limit t2 node)) := by
  obtain ⟨prob, strat, opn, sol, ter, nont, hc, ad⟩ := t
  simp only at hopen
  subst hopen
  rfl

/-! ## Sorted frontiers for the re-sorting strategies -/

theorem pairwise_insertionSort_key (k : SearchNode σ α → Int) (l : List (SearchNode σ α)) :
    (l.insertionSort (fun n m => k n ≤ k m)).Pairwise (fun n m => k n ≤ k m) := by
  haveI : IsTotal (SearchNode σ α) (fun n m => k n ≤ k m) := ⟨fun _ _ => le_total _ _⟩
  haveI : IsTrans (SearchNode σ α) (fun n m => k n ≤ k m) := ⟨fun _ _ _ => le_trans⟩
  exact List.sorted_insertionSort _ l

/-- Every pop from the frontier of a run whose strategy keeps the frontier
`mergeSort`-ed by the key `k` removes a node whose key is at most the key
of every node remaining at that pop. -/
theorem searchTrace_sorted [DecidableEq σ] (k : SearchNode σ α → Int) (strat : String)
    (hform : ∀ (u : SearchTree σ α) (l : List (SearchNode σ α)), u.strategy = strat →
      (add_to_open u l).open_nodes =
        ((u.open_nodes ++ l).insertionSort (fun n m => k n ≤ k m))) :
    ∀ (limit : Option Nat) (fuel : Nat) (t : SearchTree σ α), t.strategy = strat →
      t.open_nodes.Pairwise (fun n m => k n ≤ k m) →
      ∀ pr ∈ searchTrace limit fuel t, ∀ m ∈ pr.2, k pr.1 ≤ k m
  | limit, 0, t, _, _, pr, hpr => by simp [searchTrace_zero] at hpr
  | limit, fuel + 1, t, hstrat, hsorted, pr, hpr => by
    cases hopen : t.open_nodes with
    | nil =>
      rw [searchTrace_nil _ _ _ hopen] at hpr
      simp at hpr
    | cons node rest =>
      rw [searchTrace_succ _ _ _ _ _ hopen] at hpr
      simp only [] at hpr
      rw [List.mem_cons] at hpr
      rcases hpr with rfl | htail
      · rw [hopen] at hsorted
        intro m hm
        exact (List.pairwise_cons.mp hsorted).1 m hm
      · split at htail
        · simp at htail
        · set t2 := updateHighCost { t with open_nodes := rest } node with ht2
          have hstrat3 : ({ t2 with non_terminals := t2.non_terminals + 1 } :
              SearchTree σ α).strategy = strat := by
            simp [ht2, hstrat]
          have hstrat' : (expandStep limit t2 node).strategy = strat := by
            simp [ht2, hstrat]
          have hsorted' : (expandStep limit t2 node).open_nodes.Pairwise
              (fun n m => k n ≤ k m) := by
            unfold expandStep
            rw [hform _ _ hstrat3]
            exact pairwise_insertionSort_key k _
          exact searchTrace_sorted k strat hform limit fuel _ hstrat' hsorted' pr htail

theorem add_to_open_uniform (u : SearchTree σ α) (l : List (SearchNode σ α))
    (h : u.strategy = "uniform") :
    (add_to_open u l).open_nodes =
      ((u.open_nodes ++ l).insertionSort (fun n m => n.cost ≤ m.cost)) := by
  unfold add_to_open
  rw [h]
  simp

theorem add_to_open_greedy (u : SearchTree σ α) (l : List (SearchNode σ α))
    (h : u.strategy = "greedy") :
    (add_to_open u l).open_nodes =
      ((u.open_nodes ++ l).insertionSort (fun n m => n.heuristic ≤ m.heuristic)) := by
  unfold add_to_open
  rw [h]
  simp

theorem add_to_open_astar (u : SearchTree σ α) (l : List (SearchNode σ α))
    (h : u.strategy = "a*") :
    (add_to_open u l).open_nodes =
      ((u.open_nodes ++ l).insertionSort
        (fun n m => n.heuristic + n.cost ≤ m.heuristic + m.cost)) := by
  unfold add_to_open
  rw [h]
  simp

/-- Stability of the re-sorting insertion: two nodes with equal keys that
stood in a given relative order before the call still stand in that order
after it. -/
theorem add_to_open_stable (k : SearchNode σ α → Int) (strat : String)
    (hform : ∀ (u : SearchTree σ α) (l : List (SearchNode σ α)), u.strategy = strat →
      (add_to_open u l).open_nodes =
        ((u.open_nodes ++ l).insertionSort (fun n m => k n ≤ k m)))
    (u : SearchTree σ α) (l : List (SearchNode σ α)) (hstrat : u.strategy = strat)
    (a b : SearchNode σ α) (hk : k a ≤ k b)
    (hsub : List.Sublist [a, b] (u.open_nodes ++ l)) :
    List.Sublist [a, b] (add_to_open u l).open_nodes := by
  rw [hform u l hstrat]
  exact List.pair_sublist_insertionSort hk hsub

/-! ## Lemmas about the city-graph domain -/

theorem cidades_actions_mem :
    ∀ (conns : List (String × String × Int)) (c1 c2 : String) (d : Int),
      (c1, c2, d) ∈ conns →
      (c1, c2) ∈ Cidades.actions conns c1 ∧ (c2, c1) ∈ Cidades.actions conns c2
  | [], _, _, _, h => by simp at h
  | (x1, x2, xd) :: rest, c1, c2, d, h => by
    rw [List.mem_cons] at h
    rcases h with heq | hmem
    · simp only [Prod.mk.injEq] at heq
      obtain ⟨rfl, rfl, rfl⟩ := heq
      constructor
      · simp [Cidades.actions]
      · by_cases hc : c1 = c2
        · subst hc
          simp [Cidades.actions]
        · simp [Cidades.actions, hc]
    · have ih := cidades_actions_mem rest c1 c2 d hmem
      constructor
      · unfold Cidades.actions
        split
        · simp [ih.1]
        · split
          · simp [ih.1]
          · exact ih.1
      · unfold Cidades.actions
        split
        · simp [ih.2]
        · split
          · simp [ih.2]
          · exact ih.2

theorem cidades_cost_nomatch :
    ∀ (conns : List (String × String × Int)) (city : String) (a : String × String),
      (∀ x y dd, (x, y, dd) ∈ conns → a ≠ (x, y) ∧ a ≠ (y, x)) →
      Cidades.cost conns city a = none
  | [], _, _, _ => rfl
  | (x1, x2, xd) :: rest, city, a, h => by
    have hx := h x1 x2 xd (List.mem_cons_self _ _)
    unfold Cidades.cost
    rw [if_neg (by tauto)]
    exact cidades_cost_nomatch rest city a
      (fun x y dd hm => h x y dd (List.mem_cons_of_mem _ hm))

/-! ## Concrete nodes of the uniform-strategy run on the diamond problem,
used when exercising the ordering theorems on a specific trace. -/

/-- The root node of the diamond problem. -/
def demoRoot2 : SearchNode Nat Nat := SearchNode.mk 0 none 0 0 0 none

/-- The child of the root through action 1 (cost 3). -/
def demoNode21 : SearchNode Nat Nat := SearchNode.mk 1 (some demoRoot2) 1 3 0 (some 1)

/-- The child of the root through action 2 (cost 1). -/
def demoNode22 : SearchNode Nat Nat := SearchNode.mk 2 (some demoRoot2) 1 1 0 (some 2)

/-- The goal node reached through state 1 (cost 4). -/
def demoNode31 : SearchNode Nat Nat := SearchNode.mk 3 (some demoNode21) 2 4 0 (some 3)

/-- The goal node reached through state 2 (cost 10). -/
def demoNode32 : SearchNode Nat Nat := SearchNode.mk 3 (some demoNode22) 2 10 0 (some 3)

/-! ## The claims -/

/-- C1: every successful `search(limit)` returns the root-to-leaf sequence
of states: it starts at `problem.initial`, its last state satisfies
`domain.satisfies (·, problem.goal)`, and each consecutive pair of states
is joined by some action `a ∈ domain.actions path[i]` with
`domain.result path[i] a = path[i+1]`. -/
theorem C1_path_validity [DecidableEq σ] (p : SearchProblem σ α) (strat : String)
    (limit : Option Nat) (fuel : Nat) (path : List σ)
    (h : ((SearchTree.init p strat).search limit fuel).1 = .found path) :
    path.head? = some p.initial ∧
    (∃ s, path.getLast? = some s ∧ p.domain.satisfies s p.goal = true) ∧
    List.Chain' (DomainStep p.domain) path := by
  obtain ⟨node, hGen, rfl, hs, _, _, _⟩ :=
    searchAux_found fuel (SearchTree.init p strat) path (openInv_init p strat limit) h
  obtain ⟨hHead, _, _, _, hChain⟩ := hGen.main
  exact ⟨hHead, ⟨node.state, getLast?_get_path node, hs⟩, hChain⟩

/-- Witness for C1: the breadth-first run on the three-state chain. -/
theorem C1_path_validity_witness :
    ((SearchTree.init demoProblem "breadth").search none 10).1 =
        SearchResult.found [0, 1, 2] ∧
      (([0, 1, 2] : List Nat).head? = some demoProblem.initial ∧
        (∃ s, ([0, 1, 2] : List Nat).getLast? = some s ∧
          demoProblem.domain.satisfies s demoProblem.goal = true) ∧
        List.Chain' (DomainStep demoProblem.domain) [0, 1, 2]) :=
  ⟨by decide, C1_path_validity demoProblem "breadth" none 10 [0, 1, 2] (by decide)⟩

/-- C2: for every successful search, `solution.cost` is the sum of
`domain.cost path[i] plan[i]` over the plan (the zip of `get_path` and
`get_plan` of the solution node); the root is built with cost 0, and every
surviving child's cost is its parent's cost plus the step cost of the
generating action. -/
theorem C2_cost_consistency [DecidableEq σ] (p : SearchProblem σ α) (strat : String)
    (limit : Option Nat) (fuel : Nat) (path : List σ)
    (h : ((SearchTree.init p strat).search limit fuel).1 = .found path) :
    (∃ node, ((SearchTree.init p strat).search limit fuel).2.solution = some node ∧
      path = get_path node ∧
      node.cost = costAlong p.domain path (get_plan node)) ∧
    (rootNode p).cost = 0 ∧
    (∀ (t : SearchTree σ α) (node : SearchNode σ α) (lim : Option Nat)
       (c : SearchNode σ α), c ∈ expand t node lim →
       ∃ a ∈ t.problem.domain.actions node.state,
         c.cost = node.cost + t.problem.domain.cost node.state a ∧
         c.action = some a) := by
  refine ⟨?_, rfl, ?_⟩
  · obtain ⟨node, hGen, hpath, _, hsol, _, _⟩ :=
      searchAux_found fuel (SearchTree.init p strat) path (openInv_init p strat limit) h
    obtain ⟨_, _, _, hCost, _⟩ := hGen.main
    exact ⟨node, hsol, hpath, by rw [hpath]; exact hCost⟩
  · intro t node lim c hc
    rw [mem_expand] at hc
    obtain ⟨a, ha, _, _, rfl⟩ := hc
    exact ⟨a, ha, by simp, by simp⟩

/-- Witness for C2: the uniform-cost run on the diamond problem, whose
solution has cost 4 = 3 + 1. -/
theorem C2_cost_consistency_witness :
    ((SearchTree.init demoProblem2 "uniform").search none 10).1 =
        SearchResult.found [0, 1, 3] ∧
      ((∃ node, ((SearchTree.init demoProblem2 "uniform").search none 10).2.solution = some node ∧
          ([0, 1, 3] : List Nat) = get_path node ∧
          node.cost = costAlong demoProblem2.domain [0, 1, 3] (get_plan node)) ∧
        (rootNode demoProblem2).cost = 0 ∧
        (∀ (t : SearchTree Nat Nat) (node : SearchNode Nat Nat) (lim : Option Nat)
           (c : SearchNode Nat Nat), c ∈ expand t node lim →
           ∃ a ∈ t.problem.domain.actions node.state,
             c.cost = node.cost + t.problem.domain.cost node.state a ∧
             c.action = some a)) :=
  ⟨by decide, C2_cost_consistency demoProblem2 "uniform" none 10 [0, 1, 3] (by decide)⟩

/-- C3: in every run started by the constructor, each pop under the
`uniform` strategy removes a node of minimal `cost` among the frontier at
that pop, and analogously for `greedy` (heuristic) and `a*`
(cost + heuristic); moreover the re-sorting insertion is stable — two
nodes with equal keys that stood in a given relative order before
`add_to_open` still stand in that order afterwards. -/
theorem C3_strategy_ordering [DecidableEq σ] :
    (∀ (p : SearchProblem σ α) (limit : Option Nat) (fuel : Nat),
       ∀ pr ∈ searchTrace limit fuel (SearchTree.init p "uniform"),
         ∀ m ∈ pr.2, pr.1.cost ≤ m.cost) ∧
    (∀ (p : SearchProblem σ α) (limit : Option Nat) (fuel : Nat),
       ∀ pr ∈ searchTrace limit fuel (SearchTree.init p "greedy"),
         ∀ m ∈ pr.2, pr.1.heuristic ≤ m.heuristic) ∧
    (∀ (p : SearchProblem σ α) (limit : Option Nat) (fuel : Nat),
       ∀ pr ∈ searchTrace limit fuel (SearchTree.init p "a*"),
         ∀ m ∈ pr.2, pr.1.cost + pr.1.heuristic ≤ m.cost + m.heuristic) ∧
    (∀ (u : SearchTree σ α) (l : List (SearchNode σ α)) (a b : SearchNode σ α),
       u.strategy = "uniform" → a.cost = b.cost →
       List.Sublist [a, b] (u.open_nodes ++ l) →
       List.Sublist [a, b] (add_to_open u l).open_nodes) ∧
    (∀ (u : SearchTree σ α) (l : List (SearchNode σ α)) (a b : SearchNode σ α),
       u.strategy = "greedy" → a.heuristic = b.heuristic →
       List.Sublist [a, b] (u.open_nodes ++ l) →
       List.Sublist [a, b] (add_to_open u l).open_nodes) ∧
    (∀ (u : SearchTree σ α) (l : List (SearchNode σ α)) (a b : SearchNode σ α),
       u.strategy = "a*" → a.cost + a.heuristic = b.cost + b.heuristic →
       List.Sublist [a, b] (u.open_nodes ++ l) →
       List.Sublist [a, b] (add_to_open u l).open_nodes) := by
  refine ⟨?_, ?_, ?_, ?_, ?_, ?_⟩
  · intro p limit fuel
    exact searchTrace_sorted (fun n => n.cost) "uniform" add_to_open_uniform
      limit fuel _ rfl (List.pairwise_singleton _ _)
  · intro p limit fuel
    exact searchTrace_sorted (fun n => n.heuristic) "greedy" add_to_open_greedy
      limit fuel _ rfl (List.pairwise_singleton _ _)
  · intro p limit fuel pr hpr m hm
    have h2 := searchTrace_sorted (fun n => n.heuristic + n.cost) "a*" add_to_open_astar
      limit fuel _ rfl (List.pairwise_singleton _ _) pr hpr m hm
    dsimp only at h2
    omega
  · intro u l a b hstrat heq hsub
    exact add_to_open_stable (fun n => n.cost) "uniform" add_to_open_uniform
      u l hstrat a b (le_of_eq heq) hsub
  · intro u l a b hstrat heq hsub
    exact add_to_open_stable (fun n => n.heuristic) "greedy" add_to_open_greedy
      u l hstrat a b (le_of_eq heq) hsub
  · intro u l a b hstrat heq hsub
    refine add_to_open_stable (fun n => n.heuristic + n.cost) "a*" add_to_open_astar
      u l hstrat a b (le_of_eq ?_) hsub
    dsimp only
    omega

/-- Witness for C3: in the uniform run on the diamond problem, the second
pop removes the cost-1 child while the cost-3 child stays in the frontier,
and a concrete stable-insertion instance. -/
theorem C3_strategy_ordering_witness :
    ((demoNode22, [demoNode21]) ∈
        searchTrace none 10 (SearchTree.init demoProblem2 "uniform")) ∧
      demoNode22.cost ≤ demoNode21.cost := by
  have htr : searchTrace none 10 (SearchTree.init demoProblem2 "uniform") =
      [(demoRoot2, []), (demoNode22, [demoNode21]), (demoNode21, [demoNode32]),
       (demoNode31, [demoNode32])] := by rfl
  have hmem : (demoNode22, [demoNode21]) ∈
      searchTrace none 10 (SearchTree.init demoProblem2 "uniform") := by
    rw [htr]
    simp
  exact ⟨hmem,
    (C3_strategy_ordering (σ := Nat) (α := Nat)).1 demoProblem2 none 10
      (demoNode22, [demoNode21]) hmem demoNode21 (by simp)⟩

/-- C4: expansion discards a candidate child exactly when its state lies on
the expanding node's ancestor chain (`in_parent`, which holds iff the state
equals the node's own state or an ancestor's state, i.e. lies on
`get_path`) or when the depth limit is set and exceeded; consequently no
node ever present in the frontier repeats a state in its ancestor chain,
and a search with a limit never returns a path with more than `limit`
edges. -/
theorem C4_cycle_and_limit [DecidableEq σ] :
    (∀ (t : SearchTree σ α) (node : SearchNode σ α) (limit : Option Nat)
       (c : SearchNode σ α),
       c ∈ expand t node limit ↔
         ∃ a ∈ t.problem.domain.actions node.state,
           node.in_parent (t.problem.domain.result node.state a) = false ∧
           (∀ l, limit = some l → node.depth + 1 ≤ l) ∧
           c = .mk (t.problem.domain.result node.state a) (some node) (node.depth + 1)
             (node.cost + t.problem.domain.cost node.state a)
             (t.problem.domain.heuristic (t.problem.domain.result node.state a) t.problem.goal)
             (some a)) ∧
    (∀ (n : SearchNode σ α) (x : σ), n.in_parent x = true ↔ x ∈ get_path n) ∧
    (∀ (p : SearchProblem σ α) (strat : String) (limit : Option Nat) (fuel : Nat),
       ∀ n ∈ ((SearchTree.init p strat).search limit fuel).2.open_nodes,
         (get_path n).Nodup) ∧
    (∀ (p : SearchProblem σ α) (strat : String) (l : Nat) (fuel : Nat) (path : List σ),
       ((SearchTree.init p strat).search (some l) fuel).1 = .found path →
       path.length - 1 ≤ l) := by
  refine ⟨fun t node limit c => mem_expand, in_parent_iff_mem_get_path, ?_, ?_⟩
  · intro p strat limit fuel n hn
    exact (searchAux_openInv fuel (SearchTree.init p strat)
      (openInv_init p strat limit) n hn).2.1
  · intro p strat l fuel path h
    obtain ⟨node, hGen, rfl, _, _, _, hdep⟩ :=
      searchAux_found fuel (SearchTree.init p strat) path (openInv_init p strat (some l)) h
    obtain ⟨_, hLen, _, _, _⟩ := hGen.main
    have := hdep l rfl
    omega

/-- Witness for C4: a successful depth-limited breadth run on the chain,
whose path has 2 ≤ 5 edges. -/
theorem C4_cycle_and_limit_witness :
    ((SearchTree.init demoProblem "breadth").search (some 5) 10).1 =
        SearchResult.found [0, 1, 2] ∧
      ([0, 1, 2] : List Nat).length - 1 ≤ 5 :=
  ⟨by decide,
    (C4_cycle_and_limit (σ := Nat) (α := Nat)).2.2.2 demoProblem "breadth" 5 10
      [0, 1, 2] (by decide)⟩

/-- C5: when the frontier is exhausted without reaching a goal, `search`
returns the absence value rather than raising, the final frontier is
empty, and `solution` remains unset. -/
theorem C5_no_solution [DecidableEq σ] (p : SearchProblem σ α) (strat : String)
    (limit : Option Nat) (fuel : Nat)
    (h : ((SearchTree.init p strat).search limit fuel).1 = .failure) :
    ((SearchTree.init p strat).search limit fuel).2.solution = none ∧
    ((SearchTree.init p strat).search limit fuel).2.open_nodes = [] := by
  obtain ⟨h1, h2⟩ := searchAux_failure fuel (SearchTree.init p strat) h
  exact ⟨h1.trans rfl, h2⟩

/-- Witness for C5: the chain problem with an unreachable goal. -/
theorem C5_no_solution_witness :
    ((SearchTree.init demoProblemNoGoal "breadth").search none 10).1 =
        SearchResult.failure ∧
      (((SearchTree.init demoProblemNoGoal "breadth").search none 10).2.solution = none ∧
        ((SearchTree.init demoProblemNoGoal "breadth").search none 10).2.open_nodes = []) :=
  ⟨by decide, C5_no_solution demoProblemNoGoal "breadth" none 10 (by decide)⟩

/-- C6 counterexample: a complete search whose goal holds at the root ends
with `non_terminals = 0`, and reading `avg_branching` then hits the
unguarded division by zero (`none`, the `ZeroDivisionError` of the
source), so the read is not handled. -/
theorem C6_counterexample :
    ((SearchTree.init demoProblemAtRoot "breadth").search none 10).1 =
        SearchResult.found [0] ∧
      ((SearchTree.init demoProblemAtRoot "breadth").search none 10).2.non_terminals = 0 ∧
      ((SearchTree.init demoProblemAtRoot "breadth").search none 10).2.avg_branching = none := by
  refine ⟨by decide, by decide, ?_⟩
  rw [SearchTree.avg_branching, if_pos (by decide)]

/-- C6 (amended): when `non_terminals = 0` (goal satisfied at the root),
reading `avg_branching` raises the unguarded `ZeroDivisionError`
(modelled as the absence value); whenever `non_terminals > 0`,
`avg_branching` equals `round((terminals + non_terminals - 1) /
non_terminals, 2)`. -/
theorem C6_avg_branching (t : SearchTree σ α) :
    (t.non_terminals = 0 → t.avg_branching = none) ∧
    (0 < t.non_terminals →
      t.avg_branching = some (pyRound2 (((t.terminals : Rat) + (t.non_terminals : Rat) - 1) /
        (t.non_terminals : Rat)))) := by
  constructor
  · intro h
    rw [SearchTree.avg_branching, if_pos h]
  · intro h
    rw [SearchTree.avg_branching, if_neg (Nat.pos_iff_ne_zero.mp h)]

/-- Witness for C6 (amended): the finished breadth run on the chain has
two expanded nodes, so `avg_branching` is defined by the formula. -/
theorem C6_avg_branching_witness :
    0 < ((SearchTree.init demoProblem "breadth").search none 10).2.non_terminals ∧
      ((SearchTree.init demoProblem "breadth").search none 10).2.avg_branching =
        some (pyRound2
          (((((SearchTree.init demoProblem "breadth").search none 10).2.terminals : Rat) +
              (((SearchTree.init demoProblem "breadth").search none 10).2.non_terminals : Rat) - 1) /
            (((SearchTree.init demoProblem "breadth").search none 10).2.non_terminals : Rat))) :=
  ⟨by decide, (C6_avg_branching _).2 (by decide)⟩

/-- C7: the node removed from the frontier is always the one at position 0,
for every strategy; insertion alone distinguishes the strategies — with
`breadth` the surviving children are appended at the tail and with `depth`
they are prepended at the head, keeping their relative order. -/
theorem C7_pop_front_insertion [DecidableEq σ] :
    (∀ (limit : Option Nat) (fuel : Nat) (t : SearchTree σ α)
       (node : SearchNode σ α) (rest : List (SearchNode σ α)),
       t.open_nodes = node :: rest →
       (searchTrace limit (fuel + 1) t).head? = some (node, rest)) ∧
    (∀ (t : SearchTree σ α) (l : List (SearchNode σ α)), t.strategy = "breadth" →
       (add_to_open t l).open_nodes = t.open_nodes ++ l) ∧
    (∀ (t : SearchTree σ α) (l : List (SearchNode σ α)), t.strategy = "depth" →
       (add_to_open t l).open_nodes = l ++ t.open_nodes) := by
  refine ⟨?_, ?_, ?_⟩
  · intro limit fuel t node rest hopen
    rw [searchTrace_succ _ _ _ _ _ hopen]
    rfl
  · intro t l h
    unfold add_to_open
    rw [h]
    simp
  · intro t l h
    unfold add_to_open
    rw [h]
    simp

/-- Witness for C7 at the first pop of the depth-strategy run on the chain,
and concrete breadth/depth insertions. -/
theorem C7_pop_front_insertion_witness :
    ((SearchTree.init demoProblem "depth").open_nodes =
        rootNode demoProblem :: []) ∧
      ((searchTrace none (9 + 1) (SearchTree.init demoProblem "depth")).head? =
        some (rootNode demoProblem, [])) ∧
      ((SearchTree.init demoProblem "breadth").strategy = "breadth") ∧
      ((add_to_open (SearchTree.init demoProblem "breadth") [demoRoot2]).open_nodes =
        (SearchTree.init demoProblem "breadth").open_nodes ++ [demoRoot2]) ∧
      ((SearchTree.init demoProblem "depth").strategy = "depth") ∧
      ((add_to_open (SearchTree.init demoProblem "depth") [demoRoot2]).open_nodes =
        [demoRoot2] ++ (SearchTree.init demoProblem "depth").open_nodes) :=
  ⟨rfl,
    C7_pop_front_insertion.1 none 9 (SearchTree.init demoProblem "depth")
      (rootNode demoProblem) [] rfl,
    rfl,
    C7_pop_front_insertion.2.1 (SearchTree.init demoProblem "breadth") [demoRoot2] rfl,
    rfl,
    C7_pop_front_insertion.2.2 (SearchTree.init demoProblem "depth") [demoRoot2] rfl⟩

/-- C8: for every successful search `length` is the solution node's depth,
which equals `len(path) - 1` and `len(plan)`; the root is built with depth
0 and every surviving child with depth `parent.depth + 1`. -/
theorem C8_depth_length [DecidableEq σ] (p : SearchProblem σ α) (strat : String)
    (limit : Option Nat) (fuel : Nat) (path : List σ)
    (h : ((SearchTree.init p strat).search limit fuel).1 = .found path) :
    (∃ node, ((SearchTree.init p strat).search limit fuel).2.solution = some node ∧
      ((SearchTree.init p strat).search limit fuel).2.length = some node.depth ∧
      path.length = node.depth + 1 ∧
      (get_plan node).length = node.depth) ∧
    (rootNode p).depth = 0 ∧
    (∀ (t : SearchTree σ α) (node : SearchNode σ α) (lim : Option Nat)
       (c : SearchNode σ α), c ∈ expand t node lim → c.depth = node.depth + 1) := by
  refine ⟨?_, rfl, ?_⟩
  · obtain ⟨node, hGen, rfl, _, hsol, _, _⟩ :=
      searchAux_found fuel (SearchTree.init p strat) path (openInv_init p strat limit) h
    obtain ⟨_, hLen, hPlanLen, _, _⟩ := hGen.main
    have hsol' : ((SearchTree.init p strat).search limit fuel).2.solution = some node := hsol
    refine ⟨node, hsol', ?_, hLen, hPlanLen⟩
    rw [SearchTree.length, hsol']
    rfl
  · intro t node lim c hc
    rw [mem_expand] at hc
    obtain ⟨a, _, _, _, rfl⟩ := hc
    simp

/-- Witness for C8: the breadth run on the chain, whose solution has depth
2 with a three-state path and a two-action plan. -/
theorem C8_depth_length_witness :
    ((SearchTree.init demoProblem "breadth").search none 10).1 =
        SearchResult.found [0, 1, 2] ∧
      ((∃ node, ((SearchTree.init demoProblem "breadth").search none 10).2.solution = some node ∧
          ((SearchTree.init demoProblem "breadth").search none 10).2.length = some node.depth ∧
          ([0, 1, 2] : List Nat).length = node.depth + 1 ∧
          (get_plan node).length = node.depth) ∧
        (rootNode demoProblem).depth = 0 ∧
        (∀ (t : SearchTree Nat Nat) (node : SearchNode Nat Nat) (lim : Option Nat)
           (c : SearchNode Nat Nat), c ∈ expand t node lim →
           c.depth = node.depth + 1)) :=
  ⟨by decide, C8_depth_length demoProblem "breadth" none 10 [0, 1, 2] (by decide)⟩

/-- C9: with a strategy string other than the five recognised ones (for
example the spelling `a_star`), `add_to_open` inserts nothing, so every
generated child is dropped and the search finds the single-state path
`[initial]` when the initial state satisfies the goal and otherwise
returns the absence value. -/
theorem C9_unknown_strategy [DecidableEq σ] (p : SearchProblem σ α) (strat : String)
    (h : strat ∉ (["breadth", "depth", "uniform", "greedy", "a*"] : List String))
    (limit : Option Nat) (fuel : Nat) :
    (∀ (t : SearchTree σ α) (l : List (SearchNode σ α)), t.strategy = strat →
       (add_to_open t l).open_nodes = t.open_nodes) ∧
    ((SearchTree.init p strat).search limit (fuel + 2)).1 =
      (if p.domain.satisfies p.initial p.goal then
        SearchResult.found [p.initial]
      else SearchResult.failure) := by
  simp only [List.mem_cons, List.not_mem_nil, or_false, not_or] at h
  obtain ⟨h1, h2, h3, h4, h5⟩ := h
  have hadd : ∀ (t : SearchTree σ α) (l : List (SearchNode σ α)), t.strategy = strat →
      (add_to_open t l).open_nodes = t.open_nodes := by
    intro t l ht
    unfold add_to_open
    rw [ht, if_neg h1, if_neg h2, if_neg h3, if_neg h4, if_neg h5]
  refine ⟨hadd, ?_⟩
  have hinit : (SearchTree.init p strat).open_nodes = rootNode p :: [] := rfl
  show (searchAux limit (fuel + 1 + 1) (SearchTree.init p strat)).1 = _
  rw [searchAux_succ limit (fuel + 1) _ (rootNode p) [] hinit]
  simp only []
  by_cases hsat : p.domain.satisfies p.initial p.goal = true
  · have hg : (updateHighCost { SearchTree.init p strat with open_nodes := [] }
        (rootNode p)).problem.goal_test (rootNode p).state = true := by
      simp only [updateHighCost_problem]
      simpa [SearchProblem.goal_test, SearchTree.init, rootNode] using hsat
    rw [if_pos hg, if_pos hsat]
    rfl
  · have hg : ¬ ((updateHighCost { SearchTree.init p strat with open_nodes := [] }
        (rootNode p)).problem.goal_test (rootNode p).state = true) := by
      simp only [updateHighCost_problem]
      simpa [SearchProblem.goal_test, SearchTree.init, rootNode] using hsat
    rw [if_neg hg, if_neg hsat]
    have hopen2 : (expandStep limit (updateHighCost
        { SearchTree.init p strat with open_nodes := [] } (rootNode p))
        (rootNode p)).open_nodes = [] := by
      unfold expandStep
      rw [hadd _ _ (by simp [SearchTree.init])]
      simp
    rw [searchAux_nil _ _ _ hopen2]

/-- Witness for C9: the spec's spelling `a_star` on the chain problem,
whose initial state does not satisfy the goal. -/
theorem C9_unknown_strategy_witness :
    ("a_star" ∉ (["breadth", "depth", "uniform", "greedy", "a*"] : List String)) ∧
      ((SearchTree.init demoProblem "a_star").search none 10).1 =
        (if demoProblem.domain.satisfies demoProblem.initial demoProblem.goal then
          SearchResult.found [demoProblem.initial]
        else SearchResult.failure) :=
  ⟨by decide,
    (C9_unknown_strategy demoProblem "a_star" (by decide) none 8).2⟩

/-- C10: in the `Cidades` domain every connection triple `(C1, C2, D)` is a
bidirectional road: `actions C1` contains `(C1, C2)` and `actions C2`
contains `(C2, C1)`; `result city (city, other) = other` while an action
whose first component is not the city yields the absence value; and `cost`
returns `D` for the action in either orientation on the fixture network,
and the absence value when no connection matches. -/
theorem C10_cidades_domain :
    (∀ (conns : List (String × String × Int)) (c1 c2 : String) (d : Int),
       (c1, c2, d) ∈ conns →
       (c1, c2) ∈ Cidades.actions conns c1 ∧ (c2, c1) ∈ Cidades.actions conns c2) ∧
    (∀ (city other : String), Cidades.result city (city, other) = some other) ∧
    (∀ (city c other : String), c ≠ city → Cidades.result city (c, other) = none) ∧
    (∀ tr ∈ cidades_portugal_connections,
       Cidades.cost cidades_portugal_connections tr.1 (tr.1, tr.2.1) = some tr.2.2 ∧
       Cidades.cost cidades_portugal_connections tr.2.1 (tr.2.1, tr.1) = some tr.2.2) ∧
    (∀ (conns : List (String × String × Int)) (city : String) (a : String × String),
       (∀ x y dd, (x, y, dd) ∈ conns → a ≠ (x, y) ∧ a ≠ (y, x)) →
       Cidades.cost conns city a = none) := by
  refine ⟨cidades_actions_mem, ?_, ?_, ?_, cidades_cost_nomatch⟩
  · intro city other
    simp [Cidades.result]
  · intro city c other hne
    simp [Cidades.result, hne]
  · set_option maxRecDepth 4000 in decide

/-- Witness for C10: the Coimbra–Leiria road of length 73 in both
orientations, and a non-action for `result`. -/
theorem C10_cidades_domain_witness :
    (("Coimbra", "Leiria", (73 : Int)) ∈ cidades_portugal_connections) ∧
      (("Coimbra", "Leiria") ∈
          Cidades.actions cidades_portugal_connections "Coimbra" ∧
        ("Leiria", "Coimbra") ∈
          Cidades.actions cidades_portugal_connections "Leiria") ∧
      ("Porto" ≠ "Braga") ∧
      Cidades.result "Braga" ("Porto", "Guimaraes") = none := by
  have hmem : ("Coimbra", "Leiria", (73 : Int)) ∈ cidades_portugal_connections := by
    decide
  exact ⟨hmem, C10_cidades_domain.1 cidades_portugal_connections "Coimbra" "Leiria" 73 hmem,
    by decide, C10_cidades_domain.2.2.1 "Braga" "Porto" "Guimaraes" (by decide)⟩
